import Mathlib

/-!
Shallow embedding of the `cdialer` package (`dialer.go`): a caching dialer
that wraps a low-level connector with DNS-resolution caching (global TTL),
round-robin address selection through one shared counter, and eviction of
addresses whose connection attempt failed.

Modelling conventions:
* time instants are `Int` (nanoseconds); `time.Time.Sub` is integer subtraction;
* the Go `map[string][]string` is an association list with `mapLookup` /
  `mapInsert` (a nil map behaves as the empty list);
* the injected capabilities `LookupIP` (already composed with `ip.String()`,
  so it yields the textual addresses) and the connector `D.Dial` are explicit
  function parameters returning `Except`;
* the `int64` counter `idx` is an `Int` together with an explicit two's
  complement wrap `wrap64` at every increment;
* every operation additionally returns the list of capability invocations it
  performed (`Event.lookup` / `Event.connect`), so that "triggers a
  resolution" and "invokes the connector" are stated about the trace;
* `net.SplitHostPort` of the Go standard library is modelled for the address
  shapes the dialer receives: `host:port`, bracketed `[host]:port`, and the
  malformed cases (no colon, stray colon or bracket in the host part).
-/

namespace CDialer

/-- Connections are abstract tokens produced by the connector capability. -/
abbrev Conn := String

/-- A capability invocation performed during a call. -/
inductive Event where
  | lookup (host : String)
  | connect (addr : String)
deriving DecidableEq, Repr

/-- The mutable state of a `Dialer` value: the cached address lists, the
shared round-robin counter `idx`, the single shared `resolved` timestamp,
and the configuration fields `TTL` and `ExcludeIPv6`. -/
structure Dialer where
  addrs : List (String × List String)
  idx : Int
  resolved : Int
  ttl : Int
  excludeIPv6 : Bool
deriving DecidableEq, Repr

/-- `defaultTTL = 1 * time.Hour` in nanoseconds. -/
def defaultTTL : Int := 3600000000000

/-- `Wrap(d)`: a dialer with the default TTL and zero-valued state. -/
def Wrap : Dialer :=
  { addrs := [], idx := 0, resolved := 0, ttl := defaultTTL, excludeIPv6 := false }

/-- Go map read `m[k]`: `none` models `ok = false` (also for a nil map). -/
def mapLookup (m : List (String × List String)) (k : String) : Option (List String) :=
  match m with
  | [] => none
  | (k₀, v₀) :: rest => if k₀ = k then some v₀ else mapLookup rest k

/-- Go map write `m[k] = v` (overwrites the existing binding, if any). -/
def mapInsert (m : List (String × List String)) (k : String) (v : List String) :
    List (String × List String) :=
  match m with
  | [] => [(k, v)]
  | (k₀, v₀) :: rest => if k₀ = k then (k, v) :: rest else (k₀, v₀) :: mapInsert rest k v

/-- Index of the last occurrence of `c`, if any. -/
def lastIdx (c : Char) : List Char → Option Nat
  | [] => none
  | a :: rest =>
    match lastIdx c rest with
    | some i => some (i + 1)
    | none => if a = c then some 0 else none

/-- Model of `net.SplitHostPort` from the Go standard library: split at the
last colon; a bracketed host has its brackets stripped; error when there is
no colon, or when an unbracketed host still contains a colon or a bracket. -/
def splitHostPort (s : String) : Except String (String × String) :=
  match lastIdx ':' s.data with
  | none => .error ("address " ++ s ++ ": missing port in address")
  | some i =>
    let h := s.data.take i
    let p : String := ⟨s.data.drop (i + 1)⟩
    if h.head? = some '[' then
      if h.getLast? = some ']' then
        .ok (⟨(h.drop 1).dropLast⟩, p)
      else .error ("address " ++ s ++ ": missing right bracket in address")
    else if h.contains ':' || h.contains '[' || h.contains ']' then
      .error ("address " ++ s ++ ": too many colons in address")
    else .ok (⟨h⟩, p)

/-- Two's complement wrap of `int64` arithmetic. -/
def wrap64 (x : Int) : Int := (x + 2 ^ 63) % 2 ^ 64 - 2 ^ 63

/-- `(d *Dialer) resolve(address)`: split the key into host and port, invoke
the lookup capability, and format each returned address as `"[ip]:port"`,
skipping addresses that contain a colon when `ExcludeIPv6` is set. -/
def resolve (excl : Bool) (lk : String → Except String (List String)) (address : String) :
    Except String (List String) × List Event :=
  match splitHostPort address with
  | .error e => (.error e, [])
  | .ok (host, port) =>
    match lk host with
    | .error e => (.error e, [Event.lookup host])
    | .ok ips =>
      (.ok (ips.foldl
        (fun acc ip =>
          if excl && ip.data.contains ':' then acc
          else acc ++ ["[" ++ ip ++ "]:" ++ port]) []), [Event.lookup host])

/-- `(d *Dialer) updateAddrs(address)`: resolve, and on success store the
list under the key and refresh the shared `resolved` timestamp; on error the
state is returned unchanged. -/
def updateAddrs (lk : String → Except String (List String)) (now : Int) (st : Dialer)
    (address : String) : Except String (List String) × Dialer × List Event :=
  match resolve st.excludeIPv6 lk address with
  | (.error e, tr) => (.error e, st, tr)
  | (.ok as, tr) =>
    (.ok as, { st with addrs := mapInsert st.addrs address as, resolved := now }, tr)

/-- The body of the stale branch of `getAddrs`, executed under the exclusive
lock; `st` is the dialer state as observed once the lock is held (another
caller may have refreshed the cache in between).  Faithful to the source:
the freshly declared local `addrs` starts empty, the re-check compares
`addrs.length` (the local, always 0) rather than the length of the cached
`list`, and resolution runs whenever `addrs` is still empty. -/
def getAddrsStaleLocked (lk : String → Except String (List String)) (now : Int)
    (st : Dialer) (address : String) : Except String (List String) × Dialer × List Event :=
  let addrs : List String := []
  let addrs :=
    if now - st.resolved ≤ st.ttl then
      match mapLookup st.addrs address with
      | some list => if addrs.length > 0 then list else addrs
      | none => addrs
    else addrs
  if addrs.length == 0 then updateAddrs lk now st address
  else (.ok addrs, st, [])

/-- The slow path of the fresh branch of `getAddrs`: the key was absent or
empty under the shared lock, so re-check under the exclusive lock and
resolve if it is still absent or empty. -/
def getAddrsFreshEmpty (lk : String → Except String (List String)) (now : Int)
    (st : Dialer) (address : String) : Except String (List String) × Dialer × List Event :=
  match mapLookup st.addrs address with
  | some as =>
    if as.length == 0 then updateAddrs lk now st address
    else (.ok as, st, [])
  | none => updateAddrs lk now st address

/-- `(d *Dialer) getAddrs(address)`: stale branch when `now - resolved > TTL`,
otherwise read the cache and resolve only when the key is absent or empty. -/
def getAddrs (lk : String → Except String (List String)) (now : Int) (st : Dialer)
    (address : String) : Except String (List String) × Dialer × List Event :=
  if now - st.resolved > st.ttl then
    getAddrsStaleLocked lk now st address
  else
    match mapLookup st.addrs address with
    | some as =>
      if as.length == 0 then getAddrsFreshEmpty lk now st address
      else (.ok as, st, [])
    | none => getAddrsFreshEmpty lk now st address

/-- The linear scan of the eviction block: index of the first element equal
to `addr`, if any. -/
def scanIdx (addr : String) : List String → Option Nat
  | [] => none
  | a :: rest => if a = addr then some 0 else (scanIdx addr rest).map (· + 1)

/-- The eviction block of `Dial`, executed under the exclusive lock after a
failed connect: re-read the key, and when the attempted address is found
remove exactly that occurrence, keeping the order of the rest. -/
def evictLocked (st : Dialer) (host addr : String) : Dialer :=
  match mapLookup st.addrs host with
  | none => st
  | some as =>
    if as.length == 0 then st
    else
      match scanIdx addr as with
      | none => st
      | some index =>
        { st with addrs := mapInsert st.addrs host (as.take index ++ as.drop (index + 1)) }

/-- `(d *Dialer) Dial(network, host)`: fetch the address list, fail when it
is empty, advance the shared counter, pick `addrs[idx mod len]`, attempt the
connection, and on connector failure evict the attempted address.  A
negative selection index (the counter has wrapped negative) models the Go
runtime panic as a distinguished error. -/
def Dial (lk : String → Except String (List String))
    (connect : String → String → Except String Conn) (now : Int) (st : Dialer)
    (network host : String) : Except String Conn × Dialer × List Event :=
  match getAddrs lk now st host with
  | (.error e, st₁, tr) => (.error e, st₁, tr)
  | (.ok as, st₁, tr) =>
    if as.length == 0 then
      (.error ("dialer: can\x27t resolve host \x22" ++ host ++ "\x22"), st₁, tr)
    else
      let idx := wrap64 (st₁.idx + 1)
      let st₂ := { st₁ with idx := idx }
      let i := Int.tmod idx (as.length : Int)
      if i < 0 then
        (.error "panic: runtime error: index out of range", st₂, tr)
      else
        match as[i.toNat]? with
        | none => (.error "panic: runtime error: index out of range", st₂, tr)
        | some addr =>
          match connect network addr with
          | .ok conn => (.ok conn, st₂, tr ++ [Event.connect addr])
          | .error e => (.error e, evictLocked st₂ host addr, tr ++ [Event.connect addr])

/-- The addresses handed to the connector capability within a trace. -/
def connectCalls (tr : List Event) : List String :=
  tr.filterMap fun e =>
    match e with
    | .connect a => some a
    | .lookup _ => none

/-- The hosts handed to the lookup capability within a trace. -/
def lookupCalls (tr : List Event) : List String :=
  tr.filterMap fun e =>
    match e with
    | .lookup h => some h
    | .connect _ => none

/-- Iterate `Dial` `n` times against the same key, collecting the addresses
the connector was invoked with, in order. -/
def dialAttempts (lk : String → Except String (List String))
    (connect : String → String → Except String Conn) (now : Int)
    (network host : String) : Nat → Dialer → List String × Dialer
  | 0, st => ([], st)
  | n + 1, st =>
    match Dial lk connect now st network host with
    | (_, st₁, tr) =>
      let rest := dialAttempts lk connect now network host n st₁
      (connectCalls tr ++ rest.1, rest.2)

/-! Concrete fixtures, mirroring the scenarios of `dialer_test.go`. -/

/-- The lookup result of the `TestResolve` scenario. -/
def ghLookup : String → Except String (List String) :=
  fun _ => .ok ["10.11.12.13", "10.11.12.14", "2001:470:1:18::119"]

/-- A lookup yielding a single fresh address. -/
def lkSingle : String → Except String (List String) := fun _ => .ok ["10.0.0.2"]

/-- A dialer state as another caller would leave it after refreshing the
cache while this caller waited for the exclusive lock in the stale branch:
the timestamp is fresh again (`now - resolved = 0 ≤ ttl`) and a non-empty
list is cached for the key. -/
def stRefreshed : Dialer :=
  { addrs := [("github.com:80", ["[10.0.0.1]:80"])], idx := 0, resolved := 100,
    ttl := 50, excludeIPv6 := false }

/-- The cached state of the `TestRemoveBrokenIPFromCache` scenario. -/
def stFour : Dialer :=
  { addrs := [("github.com:80",
      ["10.0.0.1:80", "10.0.0.2:80", "10.0.0.3:80", "10.0.0.4:80"])],
    idx := 0, resolved := 0, ttl := 100, excludeIPv6 := false }

/-- A cached list holding the same address twice. -/
def stDup : Dialer :=
  { addrs := [("github.com:80", ["10.0.0.1:80", "10.0.0.2:80", "10.0.0.1:80"])],
    idx := 0, resolved := 0, ttl := 100, excludeIPv6 := false }

/-- A connector that rejects every address. -/
def connFail : String → String → Except String Conn := fun _ _ => .error "Invalid address"

/-- A connector that accepts every address, yielding the address itself as
the connection token. -/
def connEcho : String → String → Except String Conn := fun _ a => .ok a

/-- A lookup capability that always fails. -/
def lkErr : String → Except String (List String) := fun _ => .error "lookup failed"

/-- A lookup capability that yields only an IPv6 address. -/
def lkV6 : String → Except String (List String) := fun _ => .ok ["2001:db8::1"]

/-! ## Helper lemmas -/

/-- A skip-or-append fold from any accumulator collects exactly the kept
elements, in order. -/
theorem foldl_skip_append (p : String → Bool) (f : String → String) (ips acc : List String) :
    ips.foldl (fun acc ip => if p ip then acc else acc ++ [f ip]) acc =
      acc ++ (ips.filter fun ip => !(p ip)).map f := by
  induction ips generalizing acc with
  | nil => simp
  | cons ip rest ih =>
    simp only [List.foldl_cons, List.filter_cons]
    cases h : p ip <;> simp [h, ih]

/-- The characterization of `resolve` on a well-formed address with a
successful lookup. -/
theorem resolve_ok (excl : Bool) (lk : String → Except String (List String))
    (address h p : String) (ips : List String)
    (hsplit : splitHostPort address = .ok (h, p)) (hlk : lk h = .ok ips) :
    resolve excl lk address =
      (.ok ((ips.filter fun ip => !(excl && ip.data.contains ':')).map
        fun ip => "[" ++ ip ++ "]:" ++ p), [Event.lookup h]) := by
  unfold resolve
  rw [hsplit]
  simp only [hlk]
  rw [foldl_skip_append (fun ip => excl && ip.data.contains ':')
    (fun ip => "[" ++ ip ++ "]:" ++ p) ips []]
  simp

/-- Because the stale-branch re-check tests the freshly declared empty local
instead of the cached list, the branch always falls through to resolution. -/
theorem getAddrsStaleLocked_eq (lk : String → Except String (List String)) (now : Int)
    (st : Dialer) (address : String) :
    getAddrsStaleLocked lk now st address = updateAddrs lk now st address := by
  unfold getAddrsStaleLocked
  by_cases hc : now - st.resolved ≤ st.ttl
  · cases hm : mapLookup st.addrs address <;> simp [hc, hm]
  · simp [hc]

/-- `updateAddrs` leaves the state unchanged when resolution fails. -/
theorem updateAddrs_error (lk : String → Except String (List String)) (now : Int)
    (st : Dialer) (address e : String)
    (h : (updateAddrs lk now st address).1 = .error e) :
    updateAddrs lk now st address = (.error e, st, (resolve st.excludeIPv6 lk address).2) := by
  unfold updateAddrs at h ⊢
  rcases hres : resolve st.excludeIPv6 lk address with ⟨r, tr⟩
  cases r <;> simp_all

/-- `updateAddrs` never touches the round-robin counter. -/
theorem updateAddrs_idx (lk : String → Except String (List String)) (now : Int)
    (st : Dialer) (address : String) :
    (updateAddrs lk now st address).2.1.idx = st.idx := by
  unfold updateAddrs
  rcases hres : resolve st.excludeIPv6 lk address with ⟨r, tr⟩
  cases r <;> simp

/-- `getAddrsFreshEmpty` never touches the round-robin counter. -/
theorem getAddrsFreshEmpty_idx (lk : String → Except String (List String)) (now : Int)
    (st : Dialer) (address : String) :
    (getAddrsFreshEmpty lk now st address).2.1.idx = st.idx := by
  unfold getAddrsFreshEmpty
  cases hm : mapLookup st.addrs address with
  | none => exact updateAddrs_idx ..
  | some as =>
    by_cases h : as.length = 0 <;> simp [h, updateAddrs_idx]

/-- `getAddrs` never touches the round-robin counter. -/
theorem getAddrs_idx (lk : String → Except String (List String)) (now : Int)
    (st : Dialer) (address : String) :
    (getAddrs lk now st address).2.1.idx = st.idx := by
  unfold getAddrs
  by_cases hc : now - st.resolved > st.ttl
  · simp [hc, getAddrsStaleLocked_eq, updateAddrs_idx]
  · cases hm : mapLookup st.addrs address with
    | none => simp [hc, hm, getAddrsFreshEmpty_idx]
    | some as =>
      by_cases h : as.length = 0 <;> simp [hc, hm, h, getAddrsFreshEmpty_idx]

/-- When resolution fails, `getAddrs` propagates the error and leaves the
state unchanged (the cache is never reached from a key that is absent or
empty). -/
theorem getAddrs_resolve_error (lk : String → Except String (List String)) (now : Int)
    (st : Dialer) (address e : String) (tr : List Event)
    (hres : resolve st.excludeIPv6 lk address = (.error e, tr))
    (hcache : mapLookup st.addrs address = none ∨ mapLookup st.addrs address = some []) :
    getAddrs lk now st address = (.error e, st, tr) := by
  have hupd : updateAddrs lk now st address = (.error e, st, tr) := by
    unfold updateAddrs
    rw [hres]
  unfold getAddrs
  by_cases hc : now - st.resolved > st.ttl
  · rw [if_pos hc, getAddrsStaleLocked_eq, hupd]
  · rcases hcache with h | h <;> simp [hc, h, getAddrsFreshEmpty, hupd]

/-- Every error exit of `getAddrsFreshEmpty` leaves the dialer state
unchanged. -/
theorem getAddrsFreshEmpty_error_state (lk : String → Except String (List String)) (now : Int)
    (st : Dialer) (address e : String)
    (h : (getAddrsFreshEmpty lk now st address).1 = .error e) :
    (getAddrsFreshEmpty lk now st address).2.1 = st := by
  unfold getAddrsFreshEmpty at h ⊢
  cases hm : mapLookup st.addrs address with
  | none =>
    rw [hm] at h
    dsimp only at h ⊢
    rw [updateAddrs_error lk now st address e h]
  | some as =>
    rw [hm] at h
    dsimp only at h ⊢
    by_cases hlen : (as.length == 0) = true
    · rw [if_pos hlen] at h
      rw [if_pos hlen, updateAddrs_error lk now st address e h]
    · rw [if_neg hlen] at h
      simp at h

/-- Every error exit of `getAddrs` leaves the whole dialer state unchanged. -/
theorem getAddrs_error_state (lk : String → Except String (List String)) (now : Int)
    (st : Dialer) (address e : String)
    (h : (getAddrs lk now st address).1 = .error e) :
    (getAddrs lk now st address).2.1 = st := by
  unfold getAddrs at h ⊢
  by_cases hc : now - st.resolved > st.ttl
  · rw [if_pos hc, getAddrsStaleLocked_eq] at h ⊢
    rw [updateAddrs_error lk now st address e h]
  · rw [if_neg hc] at h ⊢
    cases hm : mapLookup st.addrs address with
    | none =>
      rw [hm] at h
      dsimp only at h ⊢
      exact getAddrsFreshEmpty_error_state lk now st address e h
    | some as =>
      rw [hm] at h
      dsimp only at h ⊢
      by_cases hlen : (as.length == 0) = true
      · rw [if_pos hlen] at h
        rw [if_pos hlen]
        exact getAddrsFreshEmpty_error_state lk now st address e h
      · rw [if_neg hlen] at h
        simp at h

/-- A `resolve` trace never contains connector invocations. -/
theorem connectCalls_resolve (excl : Bool) (lk : String → Except String (List String))
    (address : String) :
    connectCalls (resolve excl lk address).2 = [] := by
  unfold resolve
  cases hs : splitHostPort address with
  | error e => simp [connectCalls]
  | ok hp =>
    cases hlk : lk hp.1 <;> simp [hlk, connectCalls]

/-- An `updateAddrs` trace never contains connector invocations. -/
theorem connectCalls_updateAddrs (lk : String → Except String (List String)) (now : Int)
    (st : Dialer) (address : String) :
    connectCalls (updateAddrs lk now st address).2.2 = [] := by
  unfold updateAddrs
  rcases hres : resolve st.excludeIPv6 lk address with ⟨r, tr⟩
  have h := connectCalls_resolve st.excludeIPv6 lk address
  rw [hres] at h
  cases r <;> simpa using h

/-- A `getAddrs` trace never contains connector invocations. -/
theorem connectCalls_getAddrs (lk : String → Except String (List String)) (now : Int)
    (st : Dialer) (address : String) :
    connectCalls (getAddrs lk now st address).2.2 = [] := by
  have hfresh : connectCalls (getAddrsFreshEmpty lk now st address).2.2 = [] := by
    unfold getAddrsFreshEmpty
    cases hm : mapLookup st.addrs address with
    | none =>
      dsimp only
      exact connectCalls_updateAddrs ..
    | some as =>
      dsimp only
      by_cases hlen : (as.length == 0) = true
      · rw [if_pos hlen]
        exact connectCalls_updateAddrs ..
      · rw [if_neg hlen]
        simp [connectCalls]
  unfold getAddrs
  by_cases hc : now - st.resolved > st.ttl
  · rw [if_pos hc, getAddrsStaleLocked_eq]
    exact connectCalls_updateAddrs ..
  · rw [if_neg hc]
    cases hm : mapLookup st.addrs address with
    | none =>
      dsimp only
      exact hfresh
    | some as =>
      dsimp only
      by_cases hlen : (as.length == 0) = true
      · rw [if_pos hlen]
        exact hfresh
      · rw [if_neg hlen]
        simp [connectCalls]

/-- The lookup invocations of a `Dial` call are exactly those of its
`getAddrs` phase. -/
theorem lookupCalls_Dial (lk : String → Except String (List String))
    (connect : String → String → Except String Conn) (now : Int) (st : Dialer)
    (network host : String) :
    lookupCalls (Dial lk connect now st network host).2.2 =
      lookupCalls (getAddrs lk now st host).2.2 := by
  unfold Dial
  rcases hga : getAddrs lk now st host with ⟨r, st₁, tr⟩
  cases r with
  | error e => rfl
  | ok as =>
    dsimp only
    by_cases hlen : (as.length == 0) = true
    · rw [if_pos hlen]
    · rw [if_neg hlen]
      split
      · rfl
      · split
        · rfl
        · split <;> simp [lookupCalls, List.filterMap_append]

/-- Reading back the key just written returns the written value. -/
theorem mapLookup_mapInsert_self (m : List (String × List String)) (k : String)
    (v : List String) : mapLookup (mapInsert m k v) k = some v := by
  induction m with
  | nil => simp [mapInsert, mapLookup]
  | cons p rest ih =>
    by_cases h : p.1 = k <;> simp [mapInsert, mapLookup, h, ih]

/-- Writing one key leaves every other key unchanged. -/
theorem mapLookup_mapInsert_ne (m : List (String × List String)) (k k' : String)
    (v : List String) (hk : k ≠ k') :
    mapLookup (mapInsert m k v) k' = mapLookup m k' := by
  induction m with
  | nil => simp [mapInsert, mapLookup, hk]
  | cons p rest ih =>
    by_cases h : p.1 = k <;> simp [mapInsert, mapLookup, h, hk, ih]

/-- The linear scan fails exactly on lists not containing the address. -/
theorem scanIdx_eq_none (addr : String) (l : List String) :
    scanIdx addr l = none ↔ addr ∉ l := by
  induction l with
  | nil => simp [scanIdx]
  | cons a t ih =>
    by_cases h : a = addr
    · simp [scanIdx, h]
    · have h' : addr ≠ a := fun he => h he.symm
      simp only [scanIdx, if_neg h, Option.map_eq_none', List.mem_cons]
      simp [ih, h']

/-- Removing the first scanned occurrence is `List.erase`. -/
theorem scanIdx_erase (addr : String) (l : List String) :
    (match scanIdx addr l with
     | none => l
     | some i => l.take i ++ l.drop (i + 1)) = l.erase addr := by
  induction l with
  | nil => simp [scanIdx]
  | cons a t ih =>
    by_cases h : a = addr
    · simp [scanIdx, h, List.erase_cons]
    · rw [List.erase_cons, if_neg (by simp [h])]
      cases hs : scanIdx addr t with
      | none =>
        rw [hs] at ih
        simp [scanIdx, h, hs, ← ih]
      | some i =>
        rw [hs] at ih
        simp [scanIdx, h, hs, ← ih]

/-- `int64` arithmetic is transparent within the representable range. -/
theorem wrap64_eq (x : Int) (h₁ : -(2 ^ 63) ≤ x) (h₂ : x < 2 ^ 63) : wrap64 x = x := by
  unfold wrap64
  rw [Int.emod_eq_of_lt (by omega) (by omega)]
  omega

/-- On a fresh cache hit, `getAddrs` returns the cached list, changes
nothing, and performs no resolution. -/
theorem getAddrs_hit (lk : String → Except String (List String)) (now : Int)
    (st : Dialer) (host : String) (l : List String)
    (hfresh : now - st.resolved ≤ st.ttl) (hl : mapLookup st.addrs host = some l)
    (hne : l ≠ []) :
    getAddrs lk now st host = (.ok l, st, []) := by
  unfold getAddrs
  rw [if_neg (not_lt.mpr hfresh), hl]
  dsimp only
  rw [if_neg (by simp [List.length_eq_zero, hne])]

/-- One `Dial` against a fresh cache hit: the counter advances by one and
the connector is invoked on `l[(idx + 1) mod len]`; on success nothing else
changes, on failure the eviction block runs. -/
theorem Dial_fresh_step (lk : String → Except String (List String))
    (connect : String → String → Except String Conn) (now : Int) (st : Dialer)
    (network host : String) (l : List String)
    (hfresh : now - st.resolved ≤ st.ttl) (hl : mapLookup st.addrs host = some l)
    (hne : l ≠ []) (h0 : 0 ≤ st.idx) (hub : st.idx + 1 < 2 ^ 63) :
    Dial lk connect now st network host =
      match connect network (l.getD (((st.idx + 1) % (l.length : Int)).toNat) "") with
      | .ok c => (.ok c, { st with idx := st.idx + 1 },
          [Event.connect (l.getD (((st.idx + 1) % (l.length : Int)).toNat) "")])
      | .error e => (.error e,
          evictLocked { st with idx := st.idx + 1 } host
            (l.getD (((st.idx + 1) % (l.length : Int)).toNat) ""),
          [Event.connect (l.getD (((st.idx + 1) % (l.length : Int)).toNat) "")]) := by
  have hlen : 0 < l.length := List.length_pos.mpr hne
  have hlenZ : (0 : Int) < (l.length : Int) := by exact_mod_cast hlen
  have hw : wrap64 (st.idx + 1) = st.idx + 1 := wrap64_eq _ (by omega) hub
  have hmod : Int.tmod (st.idx + 1) (l.length : Int) = (st.idx + 1) % (l.length : Int) :=
    Int.tmod_eq_emod (by omega) (by omega)
  have hge : 0 ≤ (st.idx + 1) % (l.length : Int) := Int.emod_nonneg _ (by omega)
  have hlt : (st.idx + 1) % (l.length : Int) < (l.length : Int) := Int.emod_lt_of_pos _ hlenZ
  have hnat : ((st.idx + 1) % (l.length : Int)).toNat < l.length := by omega
  have hsome : l[((st.idx + 1) % (l.length : Int)).toNat]? =
      some (l.getD (((st.idx + 1) % (l.length : Int)).toNat) "") := by
    rw [List.getElem?_eq_getElem hnat, List.getD_eq_getElem l "" hnat]
  unfold Dial
  rw [getAddrs_hit lk now st host l hfresh hl hne]
  dsimp only
  rw [if_neg (by simp [List.length_eq_zero, hne])]
  rw [hw, hmod]
  rw [if_neg (not_lt.mpr hge)]
  rw [hsome]
  dsimp only
  cases connect network (l.getD (((st.idx + 1) % (l.length : Int)).toNat) "") <;> rfl

/-- When the attempted address is present in the current cached list,
eviction stores the list with its first occurrence removed. -/
theorem evictLocked_found (st : Dialer) (host addr : String) (l : List String)
    (hl : mapLookup st.addrs host = some l) (hmem : addr ∈ l) :
    evictLocked st host addr = { st with addrs := mapInsert st.addrs host (l.erase addr) } := by
  have hne : l ≠ [] := by
    intro h
    rw [h] at hmem
    cases hmem
  unfold evictLocked
  rw [hl]
  dsimp only
  rw [if_neg (by simp [List.length_eq_zero, hne])]
  cases hscan : scanIdx addr l with
  | none => exact absurd hmem ((scanIdx_eq_none addr l).mp hscan)
  | some i =>
    dsimp only
    have he := scanIdx_erase addr l
    rw [hscan] at he
    dsimp only at he
    rw [he]

/-- When the attempted address is no longer present in the key's current
list (or the key is gone or empty), eviction changes nothing. -/
theorem evictLocked_noop (st : Dialer) (host addr : String)
    (hnot : ∀ l, mapLookup st.addrs host = some l → addr ∉ l) :
    evictLocked st host addr = st := by
  unfold evictLocked
  cases hm : mapLookup st.addrs host with
  | none => rfl
  | some l =>
    dsimp only
    have hn : addr ∉ l := hnot l hm
    by_cases hlen : (l.length == 0) = true
    · rw [if_pos hlen]
    · rw [if_neg hlen]
      rw [(scanIdx_eq_none addr l).mpr hn]

/-- The first occurrence of an address in a list split around it. -/
theorem scanIdx_first (addr : String) (l₁ l₂ : List String) (h : addr ∉ l₁) :
    scanIdx addr (l₁ ++ addr :: l₂) = some l₁.length := by
  induction l₁ with
  | nil => simp [scanIdx]
  | cons a t ih =>
    have h1 : ¬(a = addr) := fun he => h (by simp [he])
    have h2 : addr ∉ t := fun hm => h (List.mem_cons_of_mem a hm)
    simp [scanIdx, h1, ih h2]

/-! ## Claim theorems -/

/-- C2: when the connector rejects the attempted address, `Dial` removes
exactly that address from the key's cached list, preserving the relative
order of the remaining addresses (the stored list is `List.erase` of the
old one, which drops the first matching occurrence and keeps the rest in
place); the connector's original error is returned; and the eviction block
is a no-op whenever the attempted address is no longer present in the
current list for the key. -/
theorem dial_failure_evicts_attempted_address (lk : String → Except String (List String))
    (connect : String → String → Except String Conn) (now : Int) (st : Dialer)
    (network host : String) (l : List String) (addr e : String)
    (hfresh : now - st.resolved ≤ st.ttl) (hl : mapLookup st.addrs host = some l)
    (hne : l ≠ []) (h0 : 0 ≤ st.idx) (hub : st.idx + 1 < 2 ^ 63)
    (haddr : addr = l.getD (((st.idx + 1) % (l.length : Int)).toNat) "")
    (hconn : ∀ nw a, connect nw a = .error e) :
    (Dial lk connect now st network host).1 = .error e ∧
    (Dial lk connect now st network host).2.1.addrs =
      mapInsert st.addrs host (l.erase addr) ∧
    (∀ (st' : Dialer) (h' a' : String),
      (∀ l', mapLookup st'.addrs h' = some l' → a' ∉ l') →
      evictLocked st' h' a' = st') := by
  have hlen : 0 < l.length := List.length_pos.mpr hne
  have hlenZ : (0 : Int) < (l.length : Int) := by exact_mod_cast hlen
  have hge : 0 ≤ (st.idx + 1) % (l.length : Int) := Int.emod_nonneg _ (by omega)
  have hlt : (st.idx + 1) % (l.length : Int) < (l.length : Int) := Int.emod_lt_of_pos _ hlenZ
  have hnat : ((st.idx + 1) % (l.length : Int)).toNat < l.length := by omega
  have hmem : addr ∈ l := by
    rw [haddr, List.getD_eq_getElem l "" hnat]
    exact List.getElem_mem hnat
  have hD : Dial lk connect now st network host =
      (.error e, evictLocked { st with idx := st.idx + 1 } host addr,
       [Event.connect addr]) := by
    rw [Dial_fresh_step lk connect now st network host l hfresh hl hne h0 hub, ← haddr,
      hconn]
  refine ⟨by rw [hD], ?_, fun st' h' a' hnot => evictLocked_noop st' h' a' hnot⟩
  rw [hD]
  have hl' : mapLookup ({ st with idx := st.idx + 1 } : Dialer).addrs host = some l := hl
  rw [evictLocked_found _ host addr l hl' hmem]

/-- Witness for C2: the `TestRemoveBrokenIPFromCache` scenario; the first
failing dial attempts `10.0.0.2:80` and evicts exactly it. -/
theorem dial_failure_evicts_attempted_address_witness :
    (Dial lkErr connFail 0 stFour "tcp" "github.com:80").1 = .error "Invalid address" ∧
    (Dial lkErr connFail 0 stFour "tcp" "github.com:80").2.1.addrs =
      mapInsert stFour.addrs "github.com:80"
        ((["10.0.0.1:80", "10.0.0.2:80", "10.0.0.3:80", "10.0.0.4:80"]).erase "10.0.0.2:80") ∧
    (∀ (st' : Dialer) (h' a' : String),
      (∀ l', mapLookup st'.addrs h' = some l' → a' ∉ l') →
      evictLocked st' h' a' = st') :=
  dial_failure_evicts_attempted_address lkErr connFail 0 stFour "tcp" "github.com:80"
    ["10.0.0.1:80", "10.0.0.2:80", "10.0.0.3:80", "10.0.0.4:80"] "10.0.0.2:80"
    "Invalid address" (by decide) (by rfl) (by decide) (by decide) (by decide)
    (by rfl) (fun nw a => rfl)

/-- C10: when the cached list contains the attempted address more than
once, a failed dial's eviction removes only the first occurrence — the list
splits as `l₁ ++ addr :: l₂` with `addr ∉ l₁`, and the stored result is
`l₁ ++ l₂`, keeping any later duplicates inside `l₂`. -/
theorem evict_removes_first_occurrence_only (st : Dialer) (host addr : String)
    (l₁ l₂ : List String) (h1 : addr ∉ l₁)
    (hl : mapLookup st.addrs host = some (l₁ ++ addr :: l₂)) :
    mapLookup (evictLocked st host addr).addrs host = some (l₁ ++ l₂) := by
  have hscan : scanIdx addr (l₁ ++ addr :: l₂) = some l₁.length := scanIdx_first addr l₁ l₂ h1
  have htake : (l₁ ++ addr :: l₂).take l₁.length = l₁ := List.take_left l₁ (addr :: l₂)
  have hdrop : (l₁ ++ addr :: l₂).drop (l₁.length + 1) = l₂ := by
    have hsplit : l₁ ++ addr :: l₂ = (l₁ ++ [addr]) ++ l₂ := by simp
    have hlen1 : l₁.length + 1 = (l₁ ++ [addr]).length := by simp
    rw [hsplit, hlen1, List.drop_left]
  unfold evictLocked
  rw [hl]
  dsimp only
  rw [if_neg (by simp)]
  rw [hscan]
  dsimp only
  rw [htake, hdrop, mapLookup_mapInsert_self]

/-- Witness for C10: with `10.0.0.1:80` cached at positions 0 and 2,
eviction of `10.0.0.1:80` removes position 0 and keeps the duplicate. -/
theorem evict_removes_first_occurrence_only_witness :
    mapLookup (evictLocked stDup "github.com:80" "10.0.0.1:80").addrs "github.com:80" =
      some ([] ++ ["10.0.0.2:80", "10.0.0.1:80"]) :=
  evict_removes_first_occurrence_only stDup "github.com:80" "10.0.0.1:80" []
    ["10.0.0.2:80", "10.0.0.1:80"] (by simp) (by rfl)

/-- C1 (evaluating the defect): entering the stale-branch locked section in
a state where another caller has meanwhile refreshed the cache (`now -
resolved ≤ TTL`) and a non-empty list is cached for the key, the code still
performs a new resolution — the lookup capability is invoked and the cached
non-empty list is discarded and overwritten — because the re-check compares
the freshly declared empty local variable instead of the cached entry. -/
theorem staleLocked_reresolves_despite_fresh_cache :
    (100 - stRefreshed.resolved ≤ stRefreshed.ttl) ∧
    mapLookup stRefreshed.addrs "github.com:80" = some ["[10.0.0.1]:80"] ∧
    getAddrsStaleLocked lkSingle 100 stRefreshed "github.com:80" =
      (.ok ["[10.0.0.2]:80"],
       { stRefreshed with
          addrs := [("github.com:80", ["[10.0.0.2]:80"])], resolved := 100 },
       [Event.lookup "github.com"]) :=
  ⟨by decide, by rfl, by rfl⟩

/-- C5: `resolve` produces one `"[ip]:port"` per looked-up address,
preserving lookup order and skipping exactly the colon-containing addresses
when IPv6 exclusion is configured; concretely, the `github.com:80` lookup
yields the three bracketed addresses, and only the first two under
exclusion. -/
theorem resolve_formats_and_filters (excl : Bool)
    (lk : String → Except String (List String)) (address h p : String)
    (ips : List String) (hsplit : splitHostPort address = .ok (h, p))
    (hlk : lk h = .ok ips) :
    (resolve excl lk address).1 =
      .ok ((ips.filter fun ip => !(excl && ip.data.contains ':')).map
        fun ip => "[" ++ ip ++ "]:" ++ p) ∧
    (resolve false ghLookup "github.com:80").1 =
      .ok ["[10.11.12.13]:80", "[10.11.12.14]:80", "[2001:470:1:18::119]:80"] ∧
    (resolve true ghLookup "github.com:80").1 =
      .ok ["[10.11.12.13]:80", "[10.11.12.14]:80"] := by
  refine ⟨?_, by rfl, by rfl⟩
  rw [resolve_ok excl lk address h p ips hsplit hlk]

/-- Witness for C5 at the `TestResolveExcludesIPv6` lookup. -/
theorem resolve_formats_and_filters_witness :
    (resolve true ghLookup "github.com:80").1 =
      .ok ["[10.11.12.13]:80", "[10.11.12.14]:80"] ∧
    (resolve false ghLookup "github.com:80").1 =
      .ok ["[10.11.12.13]:80", "[10.11.12.14]:80", "[2001:470:1:18::119]:80"] ∧
    (resolve true ghLookup "github.com:80").1 =
      .ok ["[10.11.12.13]:80", "[10.11.12.14]:80"] :=
  resolve_formats_and_filters true ghLookup "github.com:80" "github.com" "80"
    ["10.11.12.13", "10.11.12.14", "2001:470:1:18::119"] (by rfl) (by rfl)

/-- C6: dialing a malformed key (one `net.SplitHostPort` rejects) returns
the split error and never invokes the connector capability, provided the
malformed key has no non-empty cached list (it never can, since only
successful resolutions populate the cache). -/
theorem dial_malformed_address (lk : String → Except String (List String))
    (connect : String → String → Except String Conn) (now : Int) (st : Dialer)
    (network host e : String) (hsplit : splitHostPort host = .error e)
    (hcache : mapLookup st.addrs host = none ∨ mapLookup st.addrs host = some []) :
    (Dial lk connect now st network host).1 = .error e ∧
    connectCalls (Dial lk connect now st network host).2.2 = [] := by
  have hres : resolve st.excludeIPv6 lk host = (.error e, []) := by
    unfold resolve
    rw [hsplit]
  have hga := getAddrs_resolve_error lk now st host e [] hres hcache
  unfold Dial
  rw [hga]
  exact ⟨rfl, rfl⟩

/-- Witness for C6: dialing `localhost` (no port) from a freshly wrapped
dialer. -/
theorem dial_malformed_address_witness :
    (Dial lkErr connFail 0 Wrap "tcp" "localhost").1 =
      .error "address localhost: missing port in address" ∧
    connectCalls (Dial lkErr connFail 0 Wrap "tcp" "localhost").2.2 = [] :=
  dial_malformed_address lkErr connFail 0 Wrap "tcp" "localhost"
    "address localhost: missing port in address" (by rfl) (Or.inl (by rfl))

/-- C9: when the resolution performed by a `Dial` call fails (the key
cannot be split, or the lookup capability errors), the call returns that
error and leaves the cached state untouched: the `addrs` map and the shared
`resolved` timestamp keep their prior values. -/
theorem dial_resolution_error_preserves_state (lk : String → Except String (List String))
    (connect : String → String → Except String Conn) (now : Int) (st : Dialer)
    (network host e : String) (h : (getAddrs lk now st host).1 = .error e) :
    (Dial lk connect now st network host).1 = .error e ∧
    (Dial lk connect now st network host).2.1.addrs = st.addrs ∧
    (Dial lk connect now st network host).2.1.resolved = st.resolved := by
  have hst := getAddrs_error_state lk now st host e h
  unfold Dial
  rcases hga : getAddrs lk now st host with ⟨r, st₁, tr⟩
  rw [hga] at h hst
  dsimp only at h hst
  subst h
  subst hst
  exact ⟨rfl, rfl, rfl⟩

/-- Witness for C9: a failing lookup on a freshly wrapped dialer. -/
theorem dial_resolution_error_preserves_state_witness :
    (Dial lkErr connFail 0 Wrap "tcp" "github.com:80").1 = .error "lookup failed" ∧
    (Dial lkErr connFail 0 Wrap "tcp" "github.com:80").2.1.addrs = Wrap.addrs ∧
    (Dial lkErr connFail 0 Wrap "tcp" "github.com:80").2.1.resolved = Wrap.resolved :=
  dial_resolution_error_preserves_state lkErr connFail 0 Wrap "tcp" "github.com:80"
    "lookup failed" (by rfl)

/-- When resolution succeeds with an empty usable list and the key holds no
non-empty cached entry, `getAddrs` stores and returns the empty list. -/
theorem getAddrs_resolve_emptyList (lk : String → Except String (List String)) (now : Int)
    (st : Dialer) (host : String) (tr : List Event)
    (hres : resolve st.excludeIPv6 lk host = (.ok [], tr))
    (hcache : ∀ l, mapLookup st.addrs host = some l → l = []) :
    getAddrs lk now st host =
      (.ok [], { st with addrs := mapInsert st.addrs host [], resolved := now }, tr) := by
  have hupd : updateAddrs lk now st host =
      (.ok [], { st with addrs := mapInsert st.addrs host [], resolved := now }, tr) := by
    unfold updateAddrs
    rw [hres]
  unfold getAddrs
  by_cases hc : now - st.resolved > st.ttl
  · rw [if_pos hc, getAddrsStaleLocked_eq, hupd]
  · rw [if_neg hc]
    cases hm : mapLookup st.addrs host with
    | none =>
      dsimp only
      unfold getAddrsFreshEmpty
      rw [hm]
      exact hupd
    | some as =>
      have has := hcache as hm
      subst has
      dsimp only
      rw [if_pos (by rfl)]
      unfold getAddrsFreshEmpty
      rw [hm]
      dsimp only
      rw [if_pos (by rfl)]
      exact hupd

/-- C4: whenever resolution succeeds but produces an empty usable address
list (for example every looked-up address is IPv6 under IPv6 exclusion) and
the key holds no non-empty cached list, `Dial` returns the
unresolvable-host error naming the requested host and never invokes the
connector — for every connector capability. -/
theorem dial_unresolvable_empty_resolution (lk : String → Except String (List String))
    (now : Int) (st : Dialer) (network host : String)
    (hres : (resolve st.excludeIPv6 lk host).1 = .ok [])
    (hcache : ∀ l, mapLookup st.addrs host = some l → l = []) :
    ∀ (connect : String → String → Except String Conn),
      (Dial lk connect now st network host).1 =
        .error ("dialer: can\x27t resolve host \x22" ++ host ++ "\x22") ∧
      connectCalls (Dial lk connect now st network host).2.2 = [] := by
  intro connect
  rcases hres2 : resolve st.excludeIPv6 lk host with ⟨r, tr⟩
  rw [hres2] at hres
  dsimp only at hres
  subst hres
  have hga := getAddrs_resolve_emptyList lk now st host tr hres2 hcache
  unfold Dial
  rw [hga]
  dsimp only
  rw [if_pos (by rfl)]
  refine ⟨rfl, ?_⟩
  have hcc := connectCalls_resolve st.excludeIPv6 lk host
  rw [hres2] at hcc
  exact hcc

/-- Witness for C4: a lookup yielding only an IPv6 address under IPv6
exclusion. -/
theorem dial_unresolvable_empty_resolution_witness :
    (Dial lkV6 connFail 5 { Wrap with excludeIPv6 := true } "tcp" "github.com:80").1 =
      .error ("dialer: can\x27t resolve host \x22" ++ "github.com:80" ++ "\x22") ∧
    connectCalls
      (Dial lkV6 connFail 5 { Wrap with excludeIPv6 := true } "tcp" "github.com:80").2.2 = [] :=
  dial_unresolvable_empty_resolution lkV6 5 { Wrap with excludeIPv6 := true } "tcp"
    "github.com:80" (by rfl) (fun l hl => nomatch hl) connFail

/-- On a well-formed key, `resolve` records exactly one lookup invocation,
whatever the lookup returns. -/
theorem resolve_trace_ok_split (excl : Bool) (lk : String → Except String (List String))
    (address h p : String) (hsplit : splitHostPort address = .ok (h, p)) :
    (resolve excl lk address).2 = [Event.lookup h] := by
  unfold resolve
  rw [hsplit]
  dsimp only
  cases hlk : lk h <;> rfl

/-- The trace of `updateAddrs` is the trace of its resolution. -/
theorem updateAddrs_trace (lk : String → Except String (List String)) (now : Int)
    (st : Dialer) (address : String) :
    (updateAddrs lk now st address).2.2 = (resolve st.excludeIPv6 lk address).2 := by
  unfold updateAddrs
  rcases hres : resolve st.excludeIPv6 lk address with ⟨r, tr⟩
  cases r <;> rfl

/-- With a fresh timestamp and no non-empty cached entry, the `getAddrs`
trace is exactly the resolution trace. -/
theorem getAddrs_trace_fresh_empty (lk : String → Except String (List String)) (now : Int)
    (st : Dialer) (host : String) (hfresh : ¬(now - st.resolved > st.ttl))
    (hcache : mapLookup st.addrs host = none ∨ mapLookup st.addrs host = some []) :
    (getAddrs lk now st host).2.2 = (resolve st.excludeIPv6 lk host).2 := by
  unfold getAddrs
  rw [if_neg hfresh]
  rcases hcache with hm | hm <;>
    · rw [hm]
      dsimp only
      unfold getAddrsFreshEmpty
      rw [hm]
      dsimp only
      exact updateAddrs_trace ..

/-- C8: with a fresh (non-stale) cache, a dial whose key has no cached
entry (or an empty one) invokes the lookup capability exactly once, on the
key's host part; a dial whose key holds a non-empty cached list invokes it
zero times. -/
theorem dial_lookup_count (lk : String → Except String (List String))
    (connect : String → String → Except String Conn) (now : Int) (st : Dialer)
    (network host h p : String) :
    (now - st.resolved ≤ st.ttl →
      (mapLookup st.addrs host = none ∨ mapLookup st.addrs host = some []) →
      splitHostPort host = .ok (h, p) →
      lookupCalls (Dial lk connect now st network host).2.2 = [h]) ∧
    (∀ l, now - st.resolved ≤ st.ttl → mapLookup st.addrs host = some l → l ≠ [] →
      lookupCalls (Dial lk connect now st network host).2.2 = []) := by
  constructor
  · intro hfresh hcache hsplit
    rw [lookupCalls_Dial,
      getAddrs_trace_fresh_empty lk now st host (not_lt.mpr hfresh) hcache,
      resolve_trace_ok_split st.excludeIPv6 lk host h p hsplit]
    rfl
  · intro l hfresh hl hne
    rw [lookupCalls_Dial, getAddrs_hit lk now st host l hfresh hl hne]
    rfl

/-- Witness for C8: a first dial on an empty cache resolves once; a dial on
a cached non-empty list resolves zero times. -/
theorem dial_lookup_count_witness :
    lookupCalls (Dial ghLookup connEcho 0 Wrap "tcp" "github.com:80").2.2 =
      ["github.com"] ∧
    lookupCalls (Dial ghLookup connEcho 0 stFour "tcp" "github.com:80").2.2 = [] :=
  ⟨(dial_lookup_count ghLookup connEcho 0 Wrap "tcp" "github.com:80" "github.com" "80").1
      (by decide) (Or.inl (by rfl)) (by rfl),
   (dial_lookup_count ghLookup connEcho 0 stFour "tcp" "github.com:80" "github.com" "80").2
      ["10.0.0.1:80", "10.0.0.2:80", "10.0.0.3:80", "10.0.0.4:80"]
      (by decide) (by rfl) (by decide)⟩

/-- Eviction never touches the round-robin counter. -/
theorem evictLocked_idx (st : Dialer) (host addr : String) :
    (evictLocked st host addr).idx = st.idx := by
  unfold evictLocked
  cases hm : mapLookup st.addrs host with
  | none => rfl
  | some as =>
    dsimp only
    by_cases hlen : (as.length == 0) = true
    · rw [if_pos hlen]
    · rw [if_neg hlen]
      cases hscan : scanIdx addr as <;> rfl

/-- C7 counterexample: a dial that fails with a resolution error (malformed
key `localhost`) does not increment the shared counter: it stays `0` and is
not the incremented value `wrap64 (idx + 1) = 1`. -/
theorem dial_idx_not_always_incremented :
    (Dial lkErr connEcho 0 Wrap "tcp" "localhost").1 =
      .error "address localhost: missing port in address" ∧
    (Dial lkErr connEcho 0 Wrap "tcp" "localhost").2.1.idx = 0 ∧
    (Dial lkErr connEcho 0 Wrap "tcp" "localhost").2.1.idx ≠ wrap64 (Wrap.idx + 1) :=
  ⟨by rfl, by decide, by decide⟩

/-- C7 (amended): the shared counter is advanced by exactly one — to
`wrap64 (idx + 1)` — precisely on the dial calls that reach address
selection, i.e. those whose `getAddrs` phase returns a non-empty list,
regardless of cache key and of the connector's outcome; calls that fail
with a resolution error or the unresolvable-host error leave the counter
unchanged. -/
theorem dial_idx_increment (lk : String → Except String (List String))
    (connect : String → String → Except String Conn) (now : Int) (st : Dialer)
    (network host : String) :
    (Dial lk connect now st network host).2.1.idx =
      match (getAddrs lk now st host).1 with
      | .ok as => if as.length == 0 then st.idx else wrap64 (st.idx + 1)
      | .error _ => st.idx := by
  have hidx := getAddrs_idx lk now st host
  unfold Dial
  rcases hga : getAddrs lk now st host with ⟨r, st₁, tr⟩
  rw [hga] at hidx
  dsimp only at hidx
  cases r with
  | error e => exact hidx
  | ok as =>
    dsimp only
    by_cases hlen : (as.length == 0) = true
    · simp only [if_pos hlen]
      exact hidx
    · simp only [if_neg hlen]
      rw [← hidx]
      split
      · rfl
      · split
        · rfl
        · split
          · rfl
          · exact evictLocked_idx ..

/-- Iterating `Dial` from a fresh cache hit with an always-successful
connector: `n` dials attempt `l[(idx + 1 + k) mod len]` for `k = 0 .. n-1`
and advance the counter by `n`, leaving everything else unchanged. -/
theorem dialAttempts_run (lk : String → Except String (List String))
    (connect : String → String → Except String Conn) (now : Int)
    (network host : String) (l : List String)
    (hconn : ∀ nw a, connect nw a = .ok a) :
    ∀ (n : Nat) (st : Dialer),
      now - st.resolved ≤ st.ttl → mapLookup st.addrs host = some l → l ≠ [] →
      0 ≤ st.idx → st.idx + n < 2 ^ 63 →
      dialAttempts lk connect now network host n st =
        ((List.range n).map
          (fun (k : Nat) => l.getD (((st.idx + 1 + (k : Int)) % (l.length : Int)).toNat) ""),
         { st with idx := st.idx + n }) := by
  intro n
  induction n with
  | zero =>
    intro st hfresh hl hne h0 hub
    simp only [dialAttempts, List.range_zero, List.map_nil, Nat.cast_zero, add_zero]
  | succ n ih =>
    intro st hfresh hl hne h0 hub
    show (match Dial lk connect now st network host with
      | (_, st₁, tr) =>
        let rest := dialAttempts lk connect now network host n st₁
        (connectCalls tr ++ rest.1, rest.2)) = _
    rw [Dial_fresh_step lk connect now st network host l hfresh hl hne h0
      (by push_cast at hub; omega)]
    rw [hconn]
    dsimp only
    rw [ih { st with idx := st.idx + 1 } hfresh hl hne
      (by show (0 : Int) ≤ st.idx + 1; omega)
      (by show st.idx + 1 + (n : Int) < 2 ^ 63; push_cast at hub; omega)]
    dsimp only
    refine Prod.ext ?_ ?_
    · show connectCalls [Event.connect (l.getD (((st.idx + 1) % (l.length : Int)).toNat) "")] ++
        (List.range n).map
          (fun (k : Nat) => l.getD (((st.idx + 1 + 1 + (k : Int)) % (l.length : Int)).toNat) "") =
        (List.range (n + 1)).map
          (fun (k : Nat) => l.getD (((st.idx + 1 + (k : Int)) % (l.length : Int)).toNat) "")
      rw [List.range_succ_eq_map, List.map_cons, List.map_map]
      rw [show connectCalls [Event.connect (l.getD (((st.idx + 1) % (l.length : Int)).toNat) "")] =
        [l.getD (((st.idx + 1) % (l.length : Int)).toNat) ""] from rfl]
      rw [List.singleton_append]
      congr 1
      · simp
      · apply List.map_congr_left
        intro k hk
        simp only [Function.comp_apply, Nat.succ_eq_add_one]
        have harg : st.idx + 1 + ((k + 1 : Nat) : Int) = st.idx + 1 + 1 + (k : Int) := by
          push_cast
          ring
        rw [harg]
    · show ({ { st with idx := st.idx + 1 } with idx := st.idx + 1 + (n : Int) } : Dialer) =
        { st with idx := st.idx + ((n + 1 : Nat) : Int) }
      have harith : st.idx + 1 + (n : Int) = st.idx + ((n + 1 : Nat) : Int) := by
        push_cast
        ring
      rw [harith]

/-- Reading a list at the successive indices `(a + k) mod len` for
`k = 0 .. len-1` is a rotation of that list. -/
theorem map_getD_mod_eq_rotate (l : List String) (a : Int) (hne : l ≠ []) :
    (List.range l.length).map
        (fun (k : Nat) => l.getD (((a + (k : Int)) % (l.length : Int)).toNat) "") =
      l.rotate (a % (l.length : Int)).toNat := by
  have hlen : 0 < l.length := List.length_pos.mpr hne
  have hlenZ : (0 : Int) < (l.length : Int) := by exact_mod_cast hlen
  apply List.ext_getElem
  · simp
  · intro k h1 h2
    have hk : k < l.length := by simpa using h1
    rw [List.getElem_map, List.getElem_rotate]
    simp only [List.getElem_range]
    have hm0 : 0 ≤ a % (l.length : Int) := Int.emod_nonneg _ (by omega)
    have hmlt : a % (l.length : Int) < (l.length : Int) := Int.emod_lt_of_pos _ hlenZ
    set j : Nat := (a % (l.length : Int)).toNat with hjdef
    have hj : a % (l.length : Int) = (j : Int) := (Int.toNat_of_nonneg hm0).symm
    have hkmod : (k : Int) % (l.length : Int) = (k : Int) :=
      Int.emod_eq_of_lt (by positivity) (by exact_mod_cast hk)
    have harg : ((a + (k : Int)) % (l.length : Int)).toNat = (k + j) % l.length := by
      calc ((a + (k : Int)) % (l.length : Int)).toNat
          = ((a % (l.length : Int) + (k : Int)) % (l.length : Int)).toNat := by
            rw [Int.add_emod, hkmod]
        _ = ((((j + k : Nat) : Int)) % (l.length : Int)).toNat := by
            rw [hj]
            norm_cast
        _ = ((((j + k) % l.length : Nat) : Int)).toNat := by rw [Int.ofNat_emod]
        _ = (j + k) % l.length := Int.toNat_natCast _
        _ = (k + j) % l.length := by rw [Nat.add_comm]
    rw [harg]
    rw [List.getD_eq_getElem l "" (Nat.mod_lt _ hlen)]

/-- C3: from a fresh cache hit on a duplicate-free list of `N` addresses
with an always-successful connector, `N` consecutive dials attempt the
addresses at indices `(idx + 1 + k) mod N` — a rotation of the cached list —
so each of the `N` addresses is attempted exactly once (a duplicate-free
permutation of the list) before any address repeats. -/
theorem dial_round_robin_coverage (lk : String → Except String (List String))
    (connect : String → String → Except String Conn) (now : Int) (st : Dialer)
    (network host : String) (l : List String)
    (hconn : ∀ nw a, connect nw a = .ok a)
    (hfresh : now - st.resolved ≤ st.ttl) (hl : mapLookup st.addrs host = some l)
    (hne : l ≠ []) (hnd : l.Nodup) (h0 : 0 ≤ st.idx)
    (hub : st.idx + (l.length : Int) < 2 ^ 63) :
    (dialAttempts lk connect now network host l.length st).1 =
      (List.range l.length).map
        (fun (k : Nat) => l.getD (((st.idx + 1 + (k : Int)) % (l.length : Int)).toNat) "") ∧
    (dialAttempts lk connect now network host l.length st).1 =
      l.rotate ((st.idx + 1) % (l.length : Int)).toNat ∧
    List.Perm (dialAttempts lk connect now network host l.length st).1 l ∧
    (dialAttempts lk connect now network host l.length st).1.Nodup := by
  have h1 := dialAttempts_run lk connect now network host l hconn l.length st hfresh hl
    hne h0 hub
  have hrot := map_getD_mod_eq_rotate l (st.idx + 1) hne
  have hfst : (dialAttempts lk connect now network host l.length st).1 =
      (List.range l.length).map
        (fun (k : Nat) => l.getD (((st.idx + 1 + (k : Int)) % (l.length : Int)).toNat) "") := by
    rw [h1]
  refine ⟨hfst, ?_, ?_, ?_⟩
  · rw [hfst, hrot]
  · rw [hfst, hrot]
    exact List.rotate_perm l _
  · rw [hfst, hrot]
    exact ((List.rotate_perm l _).symm).nodup hnd

/-- Witness for C3: four successful dials against the four cached
addresses, starting at counter 0, attempt `.2 .3 .4 .1` — the cached list
rotated by one — each exactly once. -/
theorem dial_round_robin_coverage_witness :
    (dialAttempts lkErr connEcho 0 "tcp" "github.com:80" 4 stFour).1 =
      ["10.0.0.2:80", "10.0.0.3:80", "10.0.0.4:80", "10.0.0.1:80"] ∧
    (dialAttempts lkErr connEcho 0 "tcp" "github.com:80" 4 stFour).1 =
      (["10.0.0.1:80", "10.0.0.2:80", "10.0.0.3:80", "10.0.0.4:80"]).rotate 1 ∧
    List.Perm (dialAttempts lkErr connEcho 0 "tcp" "github.com:80" 4 stFour).1
      ["10.0.0.1:80", "10.0.0.2:80", "10.0.0.3:80", "10.0.0.4:80"] ∧
    (dialAttempts lkErr connEcho 0 "tcp" "github.com:80" 4 stFour).1.Nodup :=
  dial_round_robin_coverage lkErr connEcho 0 stFour "tcp" "github.com:80"
    ["10.0.0.1:80", "10.0.0.2:80", "10.0.0.3:80", "10.0.0.4:80"]
    (fun nw a => rfl) (by decide) (by rfl) (by decide) (by decide) (by decide) (by decide)

end CDialer
